import Mathlib

set_option autoImplicit false

namespace Wayshot

/-- wl_output::Transform: the eight rotation/flip states (wayland protocol). -/
inductive Transform where
  | Normal
  | _90
  | _180
  | _270
  | Flipped
  | Flipped90
  | Flipped180
  | Flipped270
  deriving DecidableEq, Repr

/-- wl_shm::Format, restricted to the wire formats the code names plus a few
other protocol formats so that non-allowlisted inputs exist. -/
inductive Format where
  | Xbgr2101010
  | Abgr2101010
  | Argb8888
  | Xrgb8888
  | Xbgr8888
  | Bgr888
  | Rgb565
  | Nv12
  deriving DecidableEq, Repr

/-- screencopy::FrameFormat (screencopy.rs, fields as used in src). -/
structure FrameFormat where
  format : Format
  width : Nat
  height : Nat
  stride : Nat
  deriving DecidableEq, Repr

/-- error::Error variants reachable from the embedded code paths.
DispatchBlocked models a blocking_dispatch call that can never be woken
because the compositor sends no further event (the code would block; an
Except value stands in for the absent FrameGuard). -/
inductive Error where
  | NoSupportedBufferFormat
  | FramecopyFailed
  | NoOutputs
  | ProtocolNotFound
  | DispatchBlocked
  deriving DecidableEq, Repr

/-- region.rs: CaptureRegion. i32 fields are modelled as Int. -/
structure CaptureRegion where
  x_coordinate : Int
  y_coordinate : Int
  width : Int
  height : Int
  deriving DecidableEq, Repr

/-- region.rs lines 28-40: CaptureRegion::overlaps. -/
def CaptureRegion.overlaps (self other : CaptureRegion) : Bool :=
  let left := self.x_coordinate
  let bottom := self.y_coordinate
  let right := self.x_coordinate + self.width
  let top := self.y_coordinate + self.height
  let other_left := other.x_coordinate
  let other_bottom := other.y_coordinate
  let other_right := other.x_coordinate + other.width
  let other_top := other.y_coordinate + other.height
  decide (left < other_right) && decide (other_left < right) &&
    decide (bottom < other_top) && decide (other_bottom < top)

/-- output.rs: OutputPositioning (logical x, y, width, height; i32 as Int). -/
structure OutputPositioning where
  x : Int
  y : Int
  width : Int
  height : Int
  deriving DecidableEq, Repr

/-- output.rs: OutputInfo, restricted to the fields the embedded code reads
(the wl_output handle, name and description play no role in these claims). -/
structure OutputInfo where
  name : String := ""
  transform : Transform := .Normal
  dimensions : OutputPositioning
  deriving DecidableEq, Repr

/-- Rust Iterator::min over Int, as used by region.rs (None on an empty
iterator, else the least element). -/
def listMin : List Int → Option Int
  | [] => none
  | x :: xs => some (xs.foldl min x)

/-- Rust Iterator::max over Int (None on an empty iterator). -/
def listMax : List Int → Option Int
  | [] => none
  | x :: xs => some (xs.foldl max x)

/-- region.rs lines 43-74: TryFrom<&Vec<OutputInfo>> for CaptureRegion.
The Rust body unwraps the min/max of each mapped iterator and always ends in
Ok; the outer Option models the panic of unwrap on an empty input, so
none = panic and some = the value the Rust function returns. -/
def CaptureRegion.tryFromOutputs (value : List OutputInfo) :
    Option (Except Error CaptureRegion) :=
  match listMin (value.map (fun output => output.dimensions.x)),
        listMin (value.map (fun output => output.dimensions.y)),
        listMax (value.map (fun output => output.dimensions.x + output.dimensions.width)),
        listMax (value.map (fun output => output.dimensions.y + output.dimensions.height)) with
  | some x1, some y1, some x2, some y2 =>
      some (.ok { x_coordinate := x1, y_coordinate := y1,
                  width := x2 - x1, height := y2 - y1 })
  | _, _, _, _ => none

/-- screencopy.rs: FrameCopy, restricted to the fields region.rs reads
(frame_format, the source output transform, and the output position). -/
structure FrameCopy where
  frame_format : FrameFormat
  transform : Transform
  position : Int × Int
  deriving DecidableEq, Repr

/-- region.rs lines 76-93: From<&FrameCopy> for CaptureRegion. -/
def CaptureRegion.fromFrameCopy (value : FrameCopy) : CaptureRegion :=
  let width : Int := value.frame_format.width
  let height : Int := value.frame_format.height
  let is_portait : Bool :=
    match value.transform with
    | ._90 | ._270 | .Flipped90 | .Flipped270 => true
    | _ => false
  { x_coordinate := value.position.fst
    y_coordinate := value.position.snd
    width := if is_portait then height else width
    height := if is_portait then width else height }

/-- The fixed allowlist of wl_shm formats accepted by
capture_output_frame_get_state (lib.rs lines 248-257). -/
def supportedShmFormat (f : Format) : Bool :=
  match f with
  | .Xbgr2101010 | .Abgr2101010 | .Argb8888 | .Xrgb8888 | .Xbgr8888 => true
  | _ => false

/-- lib.rs lines 245-258: pick the first advertised format in the allowlist. -/
def selectFrameFormat (formats : List FrameFormat) : Option FrameFormat :=
  formats.find? (fun frame => supportedShmFormat frame.format)

/-- dispatch.rs lines 148-154: FrameState. -/
inductive FrameState where
  | Failed
  | Finished
  deriving DecidableEq, Repr

/-- dispatch.rs lines 156-160: CaptureFrameState (the AtomicBool flag is a
plain Bool: each state value is owned by one capture thread). -/
structure CaptureFrameState where
  formats : List FrameFormat
  state : Option FrameState
  buffer_done : Bool
  deriving DecidableEq, Repr

/-- zwlr_screencopy_frame_v1 events delivered to one CaptureFrameState
(dispatch.rs lines 162-217). The Buffer payload carries the advertised
wire format; format codes outside the modelled Format enum do not arise. -/
inductive FrameEvent where
  | Buffer (format : Format) (width : Nat) (height : Nat) (stride : Nat)
  | Flags
  | Ready
  | Failed
  | Damage
  | LinuxDmabuf
  | BufferDone
  deriving DecidableEq, Repr

/-- dispatch.rs lines 162-217: the Dispatch event handler for
ZwlrScreencopyFrameV1, as a pure transition on CaptureFrameState. -/
def applyFrameEvent (frame : CaptureFrameState) (event : FrameEvent) : CaptureFrameState :=
  match event with
  | .Buffer format width height stride =>
      { frame with formats := frame.formats ++ [{ format, width, height, stride }] }
  | .Flags => frame
  | .Ready => { frame with state := some .Finished }
  | .Failed => { frame with state := some .Failed }
  | .Damage => frame
  | .LinuxDmabuf => frame
  | .BufferDone => { frame with buffer_done := true }

/-- lib.rs lines 236-238: the loop
while not state.buffer_done do blocking_dispatch. Each blocking_dispatch
delivers the next pending compositor event; the result is the state at loop
exit together with the events not yet consumed, and none models the call
blocking forever because the event stream is exhausted. -/
def dispatchUntilBufferDone :
    CaptureFrameState → List FrameEvent → Option (CaptureFrameState × List FrameEvent)
  | state, [] => if state.buffer_done then some (state, []) else none
  | state, e :: rest =>
      if state.buffer_done then some (state, e :: rest)
      else dispatchUntilBufferDone (applyFrameEvent state e) rest

/-- screencopy::FrameGuard, carrying the format its wl_buffer was created
with (the buffer and pool protocol handles have no further observable data). -/
structure FrameGuard where
  buffer : FrameFormat
  deriving DecidableEq, Repr

/-- lib.rs lines 302-317: the loop in capture_output_frame_inner. The
terminal state is inspected before each blocking_dispatch; on Failed the
call errors, on Finished the FrameGuard is handed back. -/
def captureLoop (guard : FrameGuard) :
    CaptureFrameState → List FrameEvent → Except Error FrameGuard
  | state, [] =>
      match state.state with
      | some .Failed => .error .FramecopyFailed
      | some .Finished => .ok guard
      | none => .error .DispatchBlocked
  | state, e :: rest =>
      match state.state with
      | some .Failed => .error .FramecopyFailed
      | some .Finished => .ok guard
      | none => captureLoop guard (applyFrameEvent state e) rest

/-- Shared-memory lifecycle steps performed by one capture, in program
order. CreateShmFd is screencopy.rs create_shm_fd: it creates a zero-sized
anonymous file descriptor and allocates no buffer memory; SetLen sizes that
file; CreatePool and CreateBuffer are the wl_shm pool and buffer objects. -/
inductive ShmStep where
  | CreateShmFd
  | SetLen (bytes : Nat)
  | CreatePool (bytes : Nat)
  | CreateBuffer (width : Nat) (height : Nat) (stride : Nat) (format : Format)
  deriving DecidableEq, Repr

/-- A step that allocates shared-memory buffer storage (everything past the
zero-sized anonymous fd). -/
def ShmStep.allocatesBuffer : ShmStep → Bool
  | .CreateShmFd => false
  | _ => true

/-- lib.rs lines 197-270: capture_output_frame_get_state. Binds the
screencopy manager (assumed present), issues capture_output, dispatches
until buffer_done, then selects the first allowlisted format, erroring with
NoSupportedBufferFormat when none is advertised. -/
def capture_output_frame_get_state (events : List FrameEvent) :
    Except Error (CaptureFrameState × List FrameEvent × FrameFormat) :=
  let state0 : CaptureFrameState := { formats := [], state := none, buffer_done := false }
  match dispatchUntilBufferDone state0 events with
  | none => .error .DispatchBlocked
  | some (state, rest) =>
      match selectFrameFormat state.formats with
      | none => .error .NoSupportedBufferFormat
      | some frame_format => .ok (state, rest, frame_format)

/-- lib.rs lines 272-318: capture_output_frame_inner. Creates the wl_shm
pool and buffer sized stride * height, issues frame.copy, then runs the
dispatch loop; returns the shm steps it performed beside the outcome. -/
def capture_output_frame_inner (state : CaptureFrameState) (frame_format : FrameFormat)
    (events : List FrameEvent) : List ShmStep × Except Error FrameGuard :=
  let frame_bytes := frame_format.stride * frame_format.height
  ([ShmStep.CreatePool frame_bytes,
    ShmStep.CreateBuffer frame_format.width frame_format.height frame_format.stride
      frame_format.format],
   captureLoop { buffer := frame_format } state events)

/-- Modelled from the spec: convert.rs create_converter is not under src;
per section 4.4 a converter exists exactly for the supported wire formats
and unsupported formats yield none. -/
def create_converter (f : Format) : Option Unit :=
  if supportedShmFormat f then some () else none

/-- lib.rs lines 320-337: capture_output_frame_shm_from_file. Negotiates
first, then sizes the backing file to stride * height, then runs the inner
capture; the shm steps are reported in program order. -/
def capture_output_frame_shm_from_file (events : List FrameEvent) :
    List ShmStep × Except Error FrameGuard :=
  match capture_output_frame_get_state events with
  | .error e => ([], .error e)
  | .ok (state, rest, frame_format) =>
      let frame_bytes := frame_format.stride * frame_format.height
      let inner := capture_output_frame_inner state frame_format rest
      (ShmStep.SetLen frame_bytes :: inner.fst, inner.snd)

/-- lib.rs lines 340-374: capture_frame_copy. Creates the anonymous shm fd
first, then captures into it, then converts in place; a missing converter
errors with NoSupportedBufferFormat. -/
def capture_frame_copy (events : List FrameEvent) :
    List ShmStep × Except Error FrameGuard :=
  let captured := capture_output_frame_shm_from_file events
  (ShmStep.CreateShmFd :: captured.fst,
   match captured.snd with
   | .error e => .error e
   | .ok guard =>
       match create_converter guard.buffer.format with
       | some _ => .ok guard
       | none => .error .NoSupportedBufferFormat)

/-- Rust collect::<Result<Vec<_>>> over the joined per-output results
(lib.rs lines 395-399): the first error short-circuits, otherwise all the
Ok payloads are gathered in order. -/
def collectResults {α : Type} : List (Except Error α) → Except Error (List α)
  | [] => .ok []
  | .error e :: _ => .error e
  | .ok a :: rest =>
      match collectResults rest with
      | .error e => .error e
      | .ok as => .ok (a :: as)

/-- lib.rs lines 376-403: capture_frame_copies. One capture per output runs
in its own scoped thread; the joined results are collected into a single
Result. The per-output body (capture_frame_copy plus pairing with the
OutputInfo) is abstracted as the function argument since outputs are
captured independently. -/
def capture_frame_copies {α : Type} (capture : OutputInfo → Except Error α)
    (outputs : List OutputInfo) : Except Error (List α) :=
  collectResults (outputs.map capture)

/-- A canonical RGBA pixel (four 8-bit channels). -/
structure RgbaPixel where
  r : Nat
  g : Nat
  b : Nat
  a : Nat
  deriving DecidableEq, Repr

/-- image::RgbaImage: a width * height pixel grid, top-left origin. The
pixel function is only meaningful at coordinates x < width, y < height. -/
structure RgbaImage where
  width : Nat
  height : Nat
  pixel : Nat → Nat → RgbaPixel

/-- Buffer equality of two images: same dimensions and the same pixel at
every in-bounds coordinate. -/
def imageEq (im1 im2 : RgbaImage) : Prop :=
  im1.width = im2.width ∧ im1.height = im2.height ∧
    ∀ x y, x < im1.width → y < im1.height → im1.pixel x y = im2.pixel x y

/-- Modelled from the spec: image::imageops::rotate90 (external crate), the
90 degree clockwise rotation; output pixel (x, y) is input pixel
(y, height - 1 - x) and the dimensions swap. -/
def rotate90 (im : RgbaImage) : RgbaImage :=
  { width := im.height, height := im.width,
    pixel := fun x y => im.pixel y (im.height - 1 - x) }

/-- Modelled from the spec: image::imageops::rotate180 (external crate). -/
def rotate180 (im : RgbaImage) : RgbaImage :=
  { width := im.width, height := im.height,
    pixel := fun x y => im.pixel (im.width - 1 - x) (im.height - 1 - y) }

/-- Modelled from the spec: image::imageops::rotate270 (external crate), the
90 degree counterclockwise rotation. -/
def rotate270 (im : RgbaImage) : RgbaImage :=
  { width := im.height, height := im.width,
    pixel := fun x y => im.pixel (im.width - 1 - y) x }

/-- Modelled from the spec: image::imageops::flip_horizontal (external
crate): mirror around the vertical axis. -/
def flip_horizontal (im : RgbaImage) : RgbaImage :=
  { width := im.width, height := im.height,
    pixel := fun x y => im.pixel (im.width - 1 - x) y }

/-- image_util.rs lines 4-44: rotate_image_buffer. The width and height
arguments are accepted and unused, exactly as in the source (the resize
path is commented out there). -/
def rotate_image_buffer (image : RgbaImage) (transform : Transform)
    (width : Nat) (height : Nat) : RgbaImage :=
  match transform with
  | ._90 => rotate90 image
  | ._180 => rotate180 image
  | ._270 => rotate270 image
  | .Flipped => flip_horizontal image
  | .Flipped90 => rotate90 (flip_horizontal image)
  | .Flipped180 => rotate180 (flip_horizontal image)
  | .Flipped270 => rotate270 (flip_horizontal image)
  | _ => image

/-- Modelled from the spec: image::imageops::replace bottom top x y
(external crate): copy top onto bottom at offset (x, y), clipped to
the bounds of bottom; the result keeps the dimensions of bottom. -/
def replace (bottom top : RgbaImage) (x y : Nat) : RgbaImage :=
  { width := bottom.width, height := bottom.height,
    pixel := fun px py =>
      if x ≤ px ∧ px < x + top.width ∧ y ≤ py ∧ py < y + top.height then
        top.pixel (px - x) (py - y)
      else
        bottom.pixel px py }

/-- lib.rs lines 530-548: the fold closure in screenshot that merges the
per-frame rotated images, with replace at offset (0, 0). -/
def overlayFold (acc : Option (Except Error RgbaImage)) (image : Except Error RgbaImage) :
    Option (Except Error RgbaImage) :=
  match acc with
  | some (.ok overlayed_image) =>
      match image with
      | .ok im => some (.ok (replace overlayed_image im 0 0))
      | .error e => some (.error e)
  | some (.error _) => some image
  | none => some image

/-- lib.rs lines 486-554: screenshot. Each already-captured frame is
rotated by its transform (the conversion of the mapped bytes into an
RgbaImage succeeds, so each rotate thread yields Ok), the results are
folded with overlayFold, and an empty fold reports Error::NoOutputs. -/
def screenshot (capture_region : CaptureRegion) (frames : List (RgbaImage × Transform)) :
    Except Error RgbaImage :=
  let width := capture_region.width
  let height := capture_region.height
  let images : List (Except Error RgbaImage) :=
    frames.map (fun frame =>
      .ok (rotate_image_buffer frame.fst frame.snd width.toNat height.toNat))
  match images.foldl overlayFold none with
  | none => .error .NoOutputs
  | some result => result

/-- True when a Failed event occurs and no Ready event precedes it. -/
def failedBeforeReady : List FrameEvent → Bool
  | [] => false
  | .Ready :: _ => false
  | .Failed :: _ => true
  | _ :: rest => failedBeforeReady rest

/-- True when a Ready event occurs before the first BufferDone. A
conformant compositor never produces this: Ready answers frame.copy, which
the client only issues after BufferDone ends format negotiation. -/
def readyBeforeBufferDone : List FrameEvent → Bool
  | [] => false
  | .BufferDone :: _ => false
  | .Ready :: _ => true
  | _ :: rest => readyBeforeBufferDone rest

/-- The description the spec gives of the region of a finished FrameCopy: origin at
the output position; width and height swapped exactly for the 90 and 270
degree rotations and their flipped variants, unswapped otherwise. Stated
separately from CaptureRegion.fromFrameCopy so the two can be compared. -/
def frameRegionSpec (value : FrameCopy) : CaptureRegion :=
  if value.transform = ._90 ∨ value.transform = ._270 ∨
      value.transform = .Flipped90 ∨ value.transform = .Flipped270 then
    { x_coordinate := value.position.fst, y_coordinate := value.position.snd,
      width := value.frame_format.height, height := value.frame_format.width }
  else
    { x_coordinate := value.position.fst, y_coordinate := value.position.snd,
      width := value.frame_format.width, height := value.frame_format.height }

/-- Repackage a CaptureRegion as an OutputInfo with those dimensions (used
to feed a computed union back into the union). -/
def outputInfoOfRegion (r : CaptureRegion) : OutputInfo :=
  { dimensions := { x := r.x_coordinate, y := r.y_coordinate,
                    width := r.width, height := r.height } }

/-- A concrete output at (0, 0) sized 1920 x 1080. -/
def wOutA : OutputInfo :=
  { dimensions := { x := 0, y := 0, width := 1920, height := 1080 } }

/-- A concrete rotated output at (1920, 0) sized 1080 x 1920. -/
def wOutB : OutputInfo :=
  { transform := ._90,
    dimensions := { x := 1920, y := 0, width := 1080, height := 1920 } }

/-- A concrete per-output capture outcome: the output at x = 0 succeeds,
every other output fails the copy. -/
def wCapture (o : OutputInfo) : Except Error Nat :=
  if o.dimensions.x = 0 then .ok 1 else .error .FramecopyFailed

/-- Opaque black, the fill colour the spec prescribes for the canvas. -/
def opaqueBlack : RgbaPixel := { r := 0, g := 0, b := 0, a := 255 }

/-- Opaque white, a probe colour distinct from the canvas fill. -/
def opaqueWhite : RgbaPixel := { r := 255, g := 255, b := 255, a := 255 }

/-- A concrete all-white 2 x 2 frame image. -/
def testImage2x2 : RgbaImage :=
  { width := 2, height := 2, pixel := fun _ _ => opaqueWhite }

/-- Concrete event run: one allowlisted Buffer offer, negotiation done,
then the compositor reports the copy failed. -/
def wEventsFailed : List FrameEvent :=
  [.Buffer .Argb8888 1920 1080 7680, .BufferDone, .Failed]

/-- Concrete event run: a non-allowlisted offer, then an allowlisted one,
then another allowlisted one, then negotiation done, then Ready. -/
def wEventsFormats : List FrameEvent :=
  [.Buffer .Bgr888 1920 1080 5760, .Buffer .Xrgb8888 1920 1080 7680,
   .Buffer .Argb8888 1920 1080 7680, .BufferDone, .Ready]

/-- Concrete event run advertising only a non-allowlisted format. -/
def wEventsNoFormat : List FrameEvent :=
  [.Buffer .Bgr888 1920 1080 5760, .BufferDone, .Ready]

/-- The capture state reached by wEventsFormats once negotiation is done. -/
def wStateFormats : CaptureFrameState :=
  { formats := [{ format := .Bgr888, width := 1920, height := 1080, stride := 5760 },
                { format := .Xrgb8888, width := 1920, height := 1080, stride := 7680 },
                { format := .Argb8888, width := 1920, height := 1080, stride := 7680 }],
    state := none, buffer_done := true }

/-- A Failed outcome is pending: either the state already records Failed, or
no terminal state is recorded yet and a Failed event precedes any Ready in
the remaining stream. -/
def pendingFailed (state : Option FrameState) (events : List FrameEvent) : Prop :=
  state = some .Failed ∨ (state = none ∧ failedBeforeReady events = true)

/-- C7 counterexample: the claim asserts overlaps(A, A) = true for every
region, but the strict inequalities make a zero-sized region (permitted by
the width, height >= 0 invariant) fail to overlap itself. -/
theorem overlaps_zero_region_not_reflexive :
    CaptureRegion.overlaps
      { x_coordinate := 0, y_coordinate := 0, width := 0, height := 0 }
      { x_coordinate := 0, y_coordinate := 0, width := 0, height := 0 } = false := by
  decide

/-- C7 (amended): overlaps is symmetric for all regions; overlaps(A, A) is
true for every region of positive width and height (a region with zero
width or height does not overlap itself); and {0,0,100,100} does not
overlap {200,0,50,50}. -/
theorem overlaps_symm_refl_outside (A B : CaptureRegion) :
    CaptureRegion.overlaps A B = CaptureRegion.overlaps B A
    ∧ (0 < A.width → 0 < A.height → CaptureRegion.overlaps A A = true)
    ∧ CaptureRegion.overlaps
        { x_coordinate := 0, y_coordinate := 0, width := 100, height := 100 }
        { x_coordinate := 200, y_coordinate := 0, width := 50, height := 50 } = false := by
  refine ⟨?_, ?_, by decide⟩
  · simp only [CaptureRegion.overlaps, ← Bool.decide_and]
    exact decide_eq_decide.mpr (by omega)
  · intro hw hh
    simp only [CaptureRegion.overlaps, Bool.and_eq_true, decide_eq_true_eq]
    omega

/-- C7 witness: the amended theorem applied to concrete regions. -/
theorem overlaps_symm_refl_outside_witness :
    CaptureRegion.overlaps
        { x_coordinate := 1, y_coordinate := 2, width := 3, height := 4 }
        { x_coordinate := 1, y_coordinate := 2, width := 3, height := 4 } = true
    ∧ (0 : Int) < 3 ∧ (0 : Int) < 4 :=
  ⟨(overlaps_symm_refl_outside
      { x_coordinate := 1, y_coordinate := 2, width := 3, height := 4 }
      { x_coordinate := 1, y_coordinate := 2, width := 3, height := 4 }).2.1
      (by decide) (by decide),
   by decide, by decide⟩

/-- C9: the logical region derived from a finished FrameCopy has the output
position as its origin and swaps width and height exactly for the 90 and
270 degree rotations and their flipped variants, matching the stated
description of the conversion. -/
theorem fromFrameCopy_matches_spec (value : FrameCopy) :
    CaptureRegion.fromFrameCopy value = frameRegionSpec value := by
  obtain ⟨ff, t, pos⟩ := value
  cases t <;> simp [CaptureRegion.fromFrameCopy, frameRegionSpec]

/-- C10: the conversion from a list of outputs to a region always takes the
Ok branch on a non-empty list, panics (models: none) on the empty list, and
the Err variant is unreachable for every input. -/
theorem tryFromOutputs_never_err (outputs : List OutputInfo) :
    (outputs ≠ [] → ∃ r, CaptureRegion.tryFromOutputs outputs = some (.ok r))
    ∧ (outputs = [] → CaptureRegion.tryFromOutputs outputs = none)
    ∧ ∀ e, CaptureRegion.tryFromOutputs outputs ≠ some (.error e) := by
  refine ⟨?_, ?_, ?_⟩
  · intro h
    match outputs, h with
    | o :: rest, _ =>
      exact ⟨_, rfl⟩
  · intro h
    subst h
    rfl
  · intro e
    match outputs with
    | [] => simp [CaptureRegion.tryFromOutputs, listMin, listMax]
    | o :: rest => simp [CaptureRegion.tryFromOutputs, listMin, listMax]

/-- C10 witness: the theorem applied to the empty list and to a concrete
singleton list. -/
theorem tryFromOutputs_never_err_witness :
    ([wOutA] ≠ ([] : List OutputInfo))
    ∧ (∃ r, CaptureRegion.tryFromOutputs [wOutA] = some (.ok r))
    ∧ CaptureRegion.tryFromOutputs [] = none :=
  ⟨by decide,
   (tryFromOutputs_never_err [wOutA]).1 (by decide),
   (tryFromOutputs_never_err []).2.1 rfl⟩

/-- Unfolding equation for CaptureRegion.tryFromOutputs on a cons cell. -/
theorem tryFromOutputs_cons_eq (o : OutputInfo) (rest : List OutputInfo) :
    CaptureRegion.tryFromOutputs (o :: rest) = some (.ok
      { x_coordinate := (rest.map (fun o2 => o2.dimensions.x)).foldl min o.dimensions.x
        y_coordinate := (rest.map (fun o2 => o2.dimensions.y)).foldl min o.dimensions.y
        width := (rest.map (fun o2 => o2.dimensions.x + o2.dimensions.width)).foldl max
            (o.dimensions.x + o.dimensions.width) -
          (rest.map (fun o2 => o2.dimensions.x)).foldl min o.dimensions.x
        height := (rest.map (fun o2 => o2.dimensions.y + o2.dimensions.height)).foldl max
            (o.dimensions.y + o.dimensions.height) -
          (rest.map (fun o2 => o2.dimensions.y)).foldl min o.dimensions.y }) := rfl

theorem foldl_min_le (xs : List Int) (x : Int) : xs.foldl min x ≤ x := by
  induction xs generalizing x with
  | nil => exact le_refl x
  | cons a as ih => exact le_trans (ih (min x a)) (min_le_left x a)

theorem foldl_min_le_of_mem (xs : List Int) (x y : Int) (hy : y ∈ xs) :
    xs.foldl min x ≤ y := by
  induction xs generalizing x with
  | nil => cases hy
  | cons a as ih =>
    rcases List.mem_cons.mp hy with h | h
    · subst h
      exact le_trans (foldl_min_le as (min x y)) (min_le_right x y)
    · exact ih (min x a) h

theorem foldl_min_eq_or_mem (xs : List Int) (x : Int) :
    xs.foldl min x = x ∨ xs.foldl min x ∈ xs := by
  induction xs generalizing x with
  | nil => exact Or.inl rfl
  | cons a as ih =>
    rcases ih (min x a) with h | h
    · rcases min_choice x a with hx | ha
      · exact Or.inl (by rw [List.foldl_cons, h, hx])
      · exact Or.inr (by rw [List.foldl_cons, h, ha]; exact List.mem_cons_self a as)
    · exact Or.inr (List.mem_cons_of_mem a h)

theorem le_foldl_max (xs : List Int) (x : Int) : x ≤ xs.foldl max x := by
  induction xs generalizing x with
  | nil => exact le_refl x
  | cons a as ih => exact le_trans (le_max_left x a) (ih (max x a))

theorem le_foldl_max_of_mem (xs : List Int) (x y : Int) (hy : y ∈ xs) :
    y ≤ xs.foldl max x := by
  induction xs generalizing x with
  | nil => cases hy
  | cons a as ih =>
    rcases List.mem_cons.mp hy with h | h
    · subst h
      exact le_trans (le_max_right x y) (le_foldl_max as (max x y))
    · exact ih (max x a) h

theorem foldl_max_eq_or_mem (xs : List Int) (x : Int) :
    xs.foldl max x = x ∨ xs.foldl max x ∈ xs := by
  induction xs generalizing x with
  | nil => exact Or.inl rfl
  | cons a as ih =>
    rcases ih (max x a) with h | h
    · rcases max_choice x a with hx | ha
      · exact Or.inl (by rw [List.foldl_cons, h, hx])
      · exact Or.inr (by rw [List.foldl_cons, h, ha]; exact List.mem_cons_self a as)
    · exact Or.inr (List.mem_cons_of_mem a h)

/-- C6: for a non-empty output list the computed union region attains the
minimum x and y and the maximum x + width and y + height of the inputs, and
feeding the result back in as a single output reproduces it. -/
theorem bounding_box_union (outputs : List OutputInfo) (h : outputs ≠ []) :
    ∃ r, CaptureRegion.tryFromOutputs outputs = some (.ok r)
      ∧ (∀ o ∈ outputs, r.x_coordinate ≤ o.dimensions.x)
      ∧ (∃ o ∈ outputs, r.x_coordinate = o.dimensions.x)
      ∧ (∀ o ∈ outputs, r.y_coordinate ≤ o.dimensions.y)
      ∧ (∃ o ∈ outputs, r.y_coordinate = o.dimensions.y)
      ∧ (∀ o ∈ outputs, o.dimensions.x + o.dimensions.width ≤ r.x_coordinate + r.width)
      ∧ (∃ o ∈ outputs, r.x_coordinate + r.width = o.dimensions.x + o.dimensions.width)
      ∧ (∀ o ∈ outputs, o.dimensions.y + o.dimensions.height ≤ r.y_coordinate + r.height)
      ∧ (∃ o ∈ outputs, r.y_coordinate + r.height = o.dimensions.y + o.dimensions.height)
      ∧ CaptureRegion.tryFromOutputs [outputInfoOfRegion r] = some (.ok r) := by
  match outputs, h with
  | o :: rest, _ =>
    obtain ⟨m1, hm1⟩ : ∃ m1, (rest.map (fun o2 => o2.dimensions.x)).foldl min
        o.dimensions.x = m1 := ⟨_, rfl⟩
    obtain ⟨m2, hm2⟩ : ∃ m2, (rest.map (fun o2 => o2.dimensions.y)).foldl min
        o.dimensions.y = m2 := ⟨_, rfl⟩
    obtain ⟨M1, hM1⟩ : ∃ M1, (rest.map (fun o2 => o2.dimensions.x + o2.dimensions.width)).foldl
        max (o.dimensions.x + o.dimensions.width) = M1 := ⟨_, rfl⟩
    obtain ⟨M2, hM2⟩ : ∃ M2, (rest.map (fun o2 => o2.dimensions.y + o2.dimensions.height)).foldl
        max (o.dimensions.y + o.dimensions.height) = M2 := ⟨_, rfl⟩
    refine ⟨{ x_coordinate := m1, y_coordinate := m2, width := M1 - m1, height := M2 - m2 },
      ?_, ?_, ?_, ?_, ?_, ?_, ?_, ?_, ?_, ?_⟩
    · rw [tryFromOutputs_cons_eq, hm1, hm2, hM1, hM2]
    · intro o2 ho2
      rcases List.mem_cons.mp ho2 with h2 | h2
      · subst h2
        rw [← hm1]
        exact foldl_min_le _ _
      · rw [← hm1]
        exact foldl_min_le_of_mem _ _ _ (List.mem_map_of_mem _ h2)
    · rcases foldl_min_eq_or_mem (rest.map (fun o2 => o2.dimensions.x)) o.dimensions.x
        with h2 | h2
      · exact ⟨o, List.mem_cons_self o rest, by rw [← hm1, h2]⟩
      · rw [hm1] at h2
        obtain ⟨o2, ho2, heq⟩ := List.mem_map.mp h2
        exact ⟨o2, List.mem_cons_of_mem o ho2, heq.symm⟩
    · intro o2 ho2
      rcases List.mem_cons.mp ho2 with h2 | h2
      · subst h2
        rw [← hm2]
        exact foldl_min_le _ _
      · rw [← hm2]
        exact foldl_min_le_of_mem _ _ _ (List.mem_map_of_mem _ h2)
    · rcases foldl_min_eq_or_mem (rest.map (fun o2 => o2.dimensions.y)) o.dimensions.y
        with h2 | h2
      · exact ⟨o, List.mem_cons_self o rest, by rw [← hm2, h2]⟩
      · rw [hm2] at h2
        obtain ⟨o2, ho2, heq⟩ := List.mem_map.mp h2
        exact ⟨o2, List.mem_cons_of_mem o ho2, heq.symm⟩
    · intro o2 ho2
      have hub : o2.dimensions.x + o2.dimensions.width ≤ M1 := by
        rcases List.mem_cons.mp ho2 with h2 | h2
        · subst h2
          rw [← hM1]
          exact le_foldl_max _ _
        · rw [← hM1]
          exact le_foldl_max_of_mem _ _ _ (List.mem_map_of_mem _ h2)
      dsimp only
      omega
    · rcases foldl_max_eq_or_mem (rest.map (fun o2 => o2.dimensions.x + o2.dimensions.width))
        (o.dimensions.x + o.dimensions.width) with h2 | h2
      · have hM : M1 = o.dimensions.x + o.dimensions.width := by rw [← hM1, h2]
        exact ⟨o, List.mem_cons_self o rest, by dsimp only; omega⟩
      · rw [hM1] at h2
        obtain ⟨o2, ho2, heq⟩ := List.mem_map.mp h2
        exact ⟨o2, List.mem_cons_of_mem o ho2, by dsimp only; omega⟩
    · intro o2 ho2
      have hub : o2.dimensions.y + o2.dimensions.height ≤ M2 := by
        rcases List.mem_cons.mp ho2 with h2 | h2
        · subst h2
          rw [← hM2]
          exact le_foldl_max _ _
        · rw [← hM2]
          exact le_foldl_max_of_mem _ _ _ (List.mem_map_of_mem _ h2)
      dsimp only
      omega
    · rcases foldl_max_eq_or_mem (rest.map (fun o2 => o2.dimensions.y + o2.dimensions.height))
        (o.dimensions.y + o.dimensions.height) with h2 | h2
      · have hM : M2 = o.dimensions.y + o.dimensions.height := by rw [← hM2, h2]
        exact ⟨o, List.mem_cons_self o rest, by dsimp only; omega⟩
      · rw [hM2] at h2
        obtain ⟨o2, ho2, heq⟩ := List.mem_map.mp h2
        exact ⟨o2, List.mem_cons_of_mem o ho2, by dsimp only; omega⟩
    · rw [tryFromOutputs_cons_eq]
      simp only [outputInfoOfRegion, List.map_nil, List.foldl_nil]
      have e1 : m1 + (M1 - m1) - m1 = M1 - m1 := by ring
      have e2 : m2 + (M2 - m2) - m2 = M2 - m2 := by ring
      rw [e1, e2]

/-- C6 witness: the theorem applied to a concrete two-output list. -/
theorem bounding_box_union_witness :
    ([wOutA, wOutB] ≠ ([] : List OutputInfo))
    ∧ ∃ r, CaptureRegion.tryFromOutputs [wOutA, wOutB] = some (.ok r)
      ∧ (∀ o ∈ [wOutA, wOutB], r.x_coordinate ≤ o.dimensions.x)
      ∧ (∃ o ∈ [wOutA, wOutB], r.x_coordinate = o.dimensions.x)
      ∧ (∀ o ∈ [wOutA, wOutB], r.y_coordinate ≤ o.dimensions.y)
      ∧ (∃ o ∈ [wOutA, wOutB], r.y_coordinate = o.dimensions.y)
      ∧ (∀ o ∈ [wOutA, wOutB], o.dimensions.x + o.dimensions.width ≤ r.x_coordinate + r.width)
      ∧ (∃ o ∈ [wOutA, wOutB], r.x_coordinate + r.width = o.dimensions.x + o.dimensions.width)
      ∧ (∀ o ∈ [wOutA, wOutB], o.dimensions.y + o.dimensions.height ≤ r.y_coordinate + r.height)
      ∧ (∃ o ∈ [wOutA, wOutB], r.y_coordinate + r.height = o.dimensions.y + o.dimensions.height)
      ∧ CaptureRegion.tryFromOutputs [outputInfoOfRegion r] = some (.ok r) :=
  ⟨by decide, bounding_box_union [wOutA, wOutB] (by decide)⟩

theorem collectResults_error_of_mem {α : Type} (results : List (Except Error α))
    (e : Error) (hmem : Except.error e ∈ results) :
    ∃ e2, collectResults results = .error e2 := by
  induction results with
  | nil => cases hmem
  | cons r rest ih =>
    match r with
    | .error e3 => exact ⟨e3, rfl⟩
    | .ok a =>
      have : Except.error e ∈ rest := by
        rcases List.mem_cons.mp hmem with h | h
        · cases h
        · exact h
      obtain ⟨e2, he2⟩ := ih this
      refine ⟨e2, ?_⟩
      simp only [collectResults, he2]

theorem collectResults_ok_forall {α : Type} (results : List (Except Error α))
    (l : List α) (hok : collectResults results = .ok l) :
    ∀ r ∈ results, ∃ a, r = .ok a := by
  induction results generalizing l with
  | nil => intro r hr; cases hr
  | cons r0 rest ih =>
    intro r hr
    match r0, hok with
    | .ok a, hok =>
      rcases List.mem_cons.mp hr with h | h
      · exact ⟨a, by rw [h]⟩
      · simp only [collectResults] at hok
        rcases hrest : collectResults rest with e2 | l2
        · rw [hrest] at hok
          cases hok
        · exact ih l2 hrest r h

theorem collectResults_first_error {α : Type} (pre : List (Except Error α))
    (e : Error) (post : List (Except Error α))
    (hpre : ∀ r ∈ pre, ∃ a, r = .ok a) :
    collectResults (pre ++ .error e :: post) = .error e := by
  induction pre with
  | nil => rfl
  | cons r0 rest ih =>
    obtain ⟨a, ha⟩ := hpre r0 (List.mem_cons_self r0 rest)
    have hrest := ih (fun r hr => hpre r (List.mem_cons_of_mem r0 hr))
    rw [List.cons_append, ha]
    simp only [collectResults, List.append_eq, hrest]

/-- C2: in capture_frame_copies, one failing output fails the whole call;
the first failing output (all earlier ones succeeding) supplies the
returned error; and an Ok result implies every output captured
successfully, so partial success is never reported as success. -/
theorem capture_frame_copies_error_policy {α : Type}
    (capture : OutputInfo → Except Error α) (outputs : List OutputInfo) :
    ((∃ o ∈ outputs, ∃ e, capture o = .error e) →
        ∃ e2, capture_frame_copies capture outputs = .error e2)
    ∧ (∀ pre o post e, outputs = pre ++ o :: post →
        (∀ p ∈ pre, ∃ a, capture p = .ok a) → capture o = .error e →
        capture_frame_copies capture outputs = .error e)
    ∧ (∀ l, capture_frame_copies capture outputs = .ok l →
        ∀ o ∈ outputs, ∃ a, capture o = .ok a) := by
  refine ⟨?_, ?_, ?_⟩
  · intro h
    obtain ⟨o, ho, e, he⟩ := h
    apply collectResults_error_of_mem (outputs.map capture) e
    rw [← he]
    exact List.mem_map_of_mem capture ho
  · intro pre o post e houts hpre he
    subst houts
    unfold capture_frame_copies
    rw [List.map_append, List.map_cons, he]
    apply collectResults_first_error
    intro r hr
    obtain ⟨p, hp, hpr⟩ := List.mem_map.mp hr
    obtain ⟨a, ha⟩ := hpre p hp
    exact ⟨a, by rw [← hpr, ha]⟩
  · intro l hok o ho
    obtain ⟨a, ha⟩ := collectResults_ok_forall (outputs.map capture) l hok
      (capture o) (List.mem_map_of_mem capture ho)
    exact ⟨a, ha⟩

/-- C2 witness: the theorem applied to a concrete capture function and a
concrete two-output list whose second output fails. -/
theorem capture_frame_copies_error_policy_witness :
    capture_frame_copies wCapture [wOutA, wOutB] = .error .FramecopyFailed :=
  (capture_frame_copies_error_policy wCapture [wOutA, wOutB]).2.1
    [wOutA] wOutB [] .FramecopyFailed rfl
    (by intro p hp; refine ⟨1, ?_⟩; simp only [List.mem_singleton] at hp; rw [hp]; rfl)
    rfl

theorem selectFrameFormat_first (pre : List FrameFormat) (f : FrameFormat)
    (post : List FrameFormat)
    (hpre : ∀ g ∈ pre, supportedShmFormat g.format = false)
    (hf : supportedShmFormat f.format = true) :
    selectFrameFormat (pre ++ f :: post) = some f := by
  induction pre with
  | nil => exact List.find?_cons_of_pos _ hf
  | cons a as ih =>
    rw [List.cons_append]
    unfold selectFrameFormat
    rw [List.find?_cons_of_neg _ (by simp [hpre a (List.mem_cons_self a as)])]
    exact ih (fun g hg => hpre g (List.mem_cons_of_mem a hg))

theorem selectFrameFormat_none (formats : List FrameFormat)
    (hall : ∀ f ∈ formats, supportedShmFormat f.format = false) :
    selectFrameFormat formats = none := by
  unfold selectFrameFormat
  rw [List.find?_eq_none]
  intro x hx
  simp [hall x hx]

/-- C4: once negotiation completes (the BufferDone loop exits with the
accumulated format list), the capture selects the first advertised format
whose wire format is allowlisted, and errors with NoSupportedBufferFormat
when no advertised format is allowlisted. -/
theorem format_selection_policy (events : List FrameEvent)
    (st : CaptureFrameState) (rest : List FrameEvent)
    (hdone : dispatchUntilBufferDone
      { formats := [], state := none, buffer_done := false } events = some (st, rest)) :
    (∀ pre f post, st.formats = pre ++ f :: post →
        supportedShmFormat f.format = true →
        (∀ g ∈ pre, supportedShmFormat g.format = false) →
        capture_output_frame_get_state events = .ok (st, rest, f))
    ∧ ((∀ f ∈ st.formats, supportedShmFormat f.format = false) →
        capture_output_frame_get_state events = .error .NoSupportedBufferFormat) := by
  constructor
  · intro pre f post hsplit hf hpre
    simp only [capture_output_frame_get_state]
    rw [hdone]
    dsimp only
    rw [hsplit, selectFrameFormat_first pre f post hpre hf]
  · intro hall
    simp only [capture_output_frame_get_state]
    rw [hdone]
    dsimp only
    rw [selectFrameFormat_none st.formats hall]

/-- C4 witness: the theorem applied to a concrete negotiation in which a
non-allowlisted format is advertised first and two allowlisted ones follow;
the first allowlisted one (Xrgb8888) is selected. -/
theorem format_selection_policy_witness :
    capture_output_frame_get_state wEventsFormats =
      .ok (wStateFormats, [FrameEvent.Ready],
        { format := .Xrgb8888, width := 1920, height := 1080, stride := 7680 }) :=
  (format_selection_policy wEventsFormats wStateFormats [FrameEvent.Ready] (by decide)).1
    [{ format := .Bgr888, width := 1920, height := 1080, stride := 5760 }]
    { format := .Xrgb8888, width := 1920, height := 1080, stride := 7680 }
    [{ format := .Argb8888, width := 1920, height := 1080, stride := 7680 }]
    (by decide) (by decide) (by decide)

theorem dispatch_done (st : CaptureFrameState) (events : List FrameEvent)
    (h : st.buffer_done = true) :
    dispatchUntilBufferDone st events = some (st, events) := by
  cases events <;> simp [dispatchUntilBufferDone, h]

theorem dispatch_reaches_done (events : List FrameEvent)
    (hdone : FrameEvent.BufferDone ∈ events) :
    ∀ st, ∃ st2 rest, dispatchUntilBufferDone st events = some (st2, rest) := by
  induction events with
  | nil => cases hdone
  | cons e rest0 ih =>
    intro st
    by_cases hb : st.buffer_done
    · exact ⟨st, e :: rest0, dispatch_done st (e :: rest0) hb⟩
    · have hstep : dispatchUntilBufferDone st (e :: rest0) =
          dispatchUntilBufferDone (applyFrameEvent st e) rest0 := by
        simp [dispatchUntilBufferDone, hb]
      rcases List.mem_cons.mp hdone with he | he
      · subst he
        refine ⟨applyFrameEvent st .BufferDone, rest0, ?_⟩
        rw [hstep]
        exact dispatch_done _ rest0 rfl
      · obtain ⟨st2, rest2, h2⟩ := ih he (applyFrameEvent st e)
        exact ⟨st2, rest2, by rw [hstep]; exact h2⟩

theorem dispatch_formats_unsupported (events : List FrameEvent) :
    ∀ st st2 rest,
    (∀ f ∈ st.formats, supportedShmFormat f.format = false) →
    (∀ f w h s, FrameEvent.Buffer f w h s ∈ events → supportedShmFormat f = false) →
    dispatchUntilBufferDone st events = some (st2, rest) →
    ∀ f ∈ st2.formats, supportedShmFormat f.format = false := by
  induction events with
  | nil =>
    intro st st2 rest hst _ hd
    by_cases hb : st.buffer_done
    · rw [dispatch_done st [] hb] at hd
      cases hd
      exact hst
    · simp [dispatchUntilBufferDone, hb] at hd
  | cons e rest0 ih =>
    intro st st2 rest hst hev hd
    by_cases hb : st.buffer_done
    · rw [dispatch_done st (e :: rest0) hb] at hd
      cases hd
      exact hst
    · have hstep : dispatchUntilBufferDone st (e :: rest0) =
          dispatchUntilBufferDone (applyFrameEvent st e) rest0 := by
        simp [dispatchUntilBufferDone, hb]
      rw [hstep] at hd
      have hev0 : ∀ f w h s, FrameEvent.Buffer f w h s ∈ rest0 →
          supportedShmFormat f = false :=
        fun f w h s hm => hev f w h s (List.mem_cons_of_mem e hm)
      have hst2 : ∀ f ∈ (applyFrameEvent st e).formats,
          supportedShmFormat f.format = false := by
        cases e with
        | Buffer f0 w0 h0 s0 =>
          intro f hf
          simp only [applyFrameEvent, List.mem_append, List.mem_singleton] at hf
          rcases hf with hf | hf
          · exact hst f hf
          · subst hf
            exact hev f0 w0 h0 s0 (List.mem_cons_self _ _)
        | Flags => exact hst
        | Ready => exact hst
        | Failed => exact hst
        | Damage => exact hst
        | LinuxDmabuf => exact hst
        | BufferDone => exact hst
      exact ih (applyFrameEvent st e) st2 rest hst2 hev0 hd

/-- C5: when negotiation completes and no advertised wire format is in the
allowlist, capture_frame_copy fails with NoSupportedBufferFormat and its
shared-memory trace is only the creation of the zero-sized anonymous fd:
no buffer storage (set_len, wl_shm pool or wl_buffer) is ever allocated. -/
theorem no_supported_format_no_allocation (events : List FrameEvent)
    (hdone : FrameEvent.BufferDone ∈ events)
    (hunsupported : ∀ f w h s, FrameEvent.Buffer f w h s ∈ events →
      supportedShmFormat f = false) :
    capture_frame_copy events = ([ShmStep.CreateShmFd], .error .NoSupportedBufferFormat)
    ∧ ∀ step ∈ (capture_frame_copy events).fst, step.allocatesBuffer = false := by
  obtain ⟨st2, rest, hd⟩ := dispatch_reaches_done events hdone
    { formats := [], state := none, buffer_done := false }
  have hforms : ∀ f ∈ st2.formats, supportedShmFormat f.format = false :=
    dispatch_formats_unsupported events _ st2 rest (by intro f hf; cases hf)
      hunsupported hd
  have hgs : capture_output_frame_get_state events = .error .NoSupportedBufferFormat := by
    simp only [capture_output_frame_get_state]
    rw [hd]
    dsimp only
    rw [selectFrameFormat_none st2.formats hforms]
  have hmain : capture_frame_copy events =
      ([ShmStep.CreateShmFd], .error .NoSupportedBufferFormat) := by
    simp only [capture_frame_copy, capture_output_frame_shm_from_file, hgs]
  refine ⟨hmain, ?_⟩
  rw [hmain]
  intro step hstep
  simp only [List.mem_singleton] at hstep
  subst hstep
  rfl

theorem wEventsNoFormat_unsupported :
    ∀ f w h s, FrameEvent.Buffer f w h s ∈ wEventsNoFormat →
      supportedShmFormat f = false := by
  intro f w h s hm
  simp only [wEventsNoFormat, List.mem_cons, List.not_mem_nil, or_false] at hm
  rcases hm with hm | hm | hm
  · injection hm with h1 h2 h3 h4
    subst h1
    rfl
  · cases hm
  · cases hm

/-- C5 witness: the theorem applied to a concrete run advertising only the
non-allowlisted Bgr888 format. -/
theorem no_supported_format_no_allocation_witness :
    FrameEvent.BufferDone ∈ wEventsNoFormat
    ∧ capture_frame_copy wEventsNoFormat =
        ([ShmStep.CreateShmFd], .error .NoSupportedBufferFormat)
    ∧ ∀ step ∈ (capture_frame_copy wEventsNoFormat).fst, step.allocatesBuffer = false :=
  ⟨by decide,
   (no_supported_format_no_allocation wEventsNoFormat (by decide)
     wEventsNoFormat_unsupported).1,
   (no_supported_format_no_allocation wEventsNoFormat (by decide)
     wEventsNoFormat_unsupported).2⟩

theorem dispatch_preserves_pending (events : List FrameEvent) :
    ∀ st st2 rest, pendingFailed st.state events →
    readyBeforeBufferDone events = false →
    dispatchUntilBufferDone st events = some (st2, rest) →
    pendingFailed st2.state rest := by
  induction events with
  | nil =>
    intro st st2 rest hp _ hd
    by_cases hb : st.buffer_done
    · rw [dispatch_done st [] hb] at hd
      cases hd
      exact hp
    · simp [dispatchUntilBufferDone, hb] at hd
  | cons e rest0 ih =>
    intro st st2 rest hp hr hd
    by_cases hb : st.buffer_done
    · rw [dispatch_done st (e :: rest0) hb] at hd
      cases hd
      exact hp
    · have hstep : dispatchUntilBufferDone st (e :: rest0) =
          dispatchUntilBufferDone (applyFrameEvent st e) rest0 := by
        simp [dispatchUntilBufferDone, hb]
      rw [hstep] at hd
      cases e with
      | Ready =>
        simp [readyBeforeBufferDone] at hr
      | Failed =>
        refine ih _ st2 rest (Or.inl rfl) ?_ hd
        simpa [readyBeforeBufferDone] using hr
      | BufferDone =>
        rw [dispatch_done _ rest0 rfl] at hd
        cases hd
        rcases hp with h | ⟨h1, h2⟩
        · exact Or.inl h
        · exact Or.inr ⟨h1, by simpa [failedBeforeReady] using h2⟩
      | Buffer f w h s =>
        refine ih _ st2 rest ?_ (by simpa [readyBeforeBufferDone] using hr) hd
        rcases hp with h | ⟨h1, h2⟩
        · exact Or.inl h
        · exact Or.inr ⟨h1, by simpa [failedBeforeReady] using h2⟩
      | Flags =>
        refine ih _ st2 rest ?_ (by simpa [readyBeforeBufferDone] using hr) hd
        rcases hp with h | ⟨h1, h2⟩
        · exact Or.inl h
        · exact Or.inr ⟨h1, by simpa [failedBeforeReady] using h2⟩
      | Damage =>
        refine ih _ st2 rest ?_ (by simpa [readyBeforeBufferDone] using hr) hd
        rcases hp with h | ⟨h1, h2⟩
        · exact Or.inl h
        · exact Or.inr ⟨h1, by simpa [failedBeforeReady] using h2⟩
      | LinuxDmabuf =>
        refine ih _ st2 rest ?_ (by simpa [readyBeforeBufferDone] using hr) hd
        rcases hp with h | ⟨h1, h2⟩
        · exact Or.inl h
        · exact Or.inr ⟨h1, by simpa [failedBeforeReady] using h2⟩

theorem captureLoop_pending_errors (events : List FrameEvent) :
    ∀ st guard, pendingFailed st.state events →
    ∃ e, captureLoop guard st events = .error e := by
  induction events with
  | nil =>
    intro st guard hp
    rcases hp with h | ⟨h1, h2⟩
    · exact ⟨.FramecopyFailed, by simp [captureLoop, h]⟩
    · simp [failedBeforeReady] at h2
  | cons e rest ih =>
    intro st guard hp
    rcases hp with h | ⟨h1, h2⟩
    · exact ⟨.FramecopyFailed, by simp [captureLoop, h]⟩
    · have hstep : captureLoop guard st (e :: rest) =
          captureLoop guard (applyFrameEvent st e) rest := by
        simp [captureLoop, h1]
      rw [hstep]
      cases e with
      | Ready => simp [failedBeforeReady] at h2
      | Failed => exact ih _ guard (Or.inl rfl)
      | Buffer f w h s =>
        exact ih _ guard (Or.inr ⟨h1, by simpa [failedBeforeReady] using h2⟩)
      | Flags =>
        exact ih _ guard (Or.inr ⟨h1, by simpa [failedBeforeReady] using h2⟩)
      | Damage =>
        exact ih _ guard (Or.inr ⟨h1, by simpa [failedBeforeReady] using h2⟩)
      | LinuxDmabuf =>
        exact ih _ guard (Or.inr ⟨h1, by simpa [failedBeforeReady] using h2⟩)
      | BufferDone =>
        exact ih _ guard (Or.inr ⟨h1, by simpa [failedBeforeReady] using h2⟩)

/-- C3: whenever a Failed event arrives before any Ready event (Ready
cannot precede the end of negotiation, since it answers the copy request
issued only after BufferDone), the capture returns an error and no
FrameGuard is handed back. -/
theorem failed_before_ready_errors (events : List FrameEvent)
    (h1 : failedBeforeReady events = true)
    (h2 : readyBeforeBufferDone events = false) :
    (∃ e, (capture_frame_copy events).snd = .error e)
    ∧ ∀ g, (capture_frame_copy events).snd ≠ .ok g := by
  have herr : ∃ e, (capture_frame_copy events).snd = .error e := by
    rcases hd : dispatchUntilBufferDone
        { formats := [], state := none, buffer_done := false } events
      with _ | ⟨st2, rest⟩
    · refine ⟨.DispatchBlocked, ?_⟩
      simp only [capture_frame_copy, capture_output_frame_shm_from_file,
        capture_output_frame_get_state]
      rw [hd]
    · have hp2 : pendingFailed st2.state rest :=
        dispatch_preserves_pending events _ st2 rest (Or.inr ⟨rfl, h1⟩) h2 hd
      rcases hsel : selectFrameFormat st2.formats with _ | ff
      · refine ⟨.NoSupportedBufferFormat, ?_⟩
        simp only [capture_frame_copy, capture_output_frame_shm_from_file,
          capture_output_frame_get_state]
        rw [hd]
        dsimp only
        rw [hsel]
      · obtain ⟨e, he⟩ := captureLoop_pending_errors rest st2 { buffer := ff } hp2
        refine ⟨e, ?_⟩
        simp only [capture_frame_copy, capture_output_frame_shm_from_file,
          capture_output_frame_get_state, capture_output_frame_inner]
        rw [hd]
        dsimp only
        rw [hsel]
        dsimp only
        rw [he]
  refine ⟨herr, ?_⟩
  obtain ⟨e, he⟩ := herr
  intro g
  rw [he]
  exact fun h => by cases h

/-- C3 witness: the theorem applied to a concrete run in which the copy
fails after successful negotiation. -/
theorem failed_before_ready_errors_witness :
    failedBeforeReady wEventsFailed = true
    ∧ readyBeforeBufferDone wEventsFailed = false
    ∧ (∃ e, (capture_frame_copy wEventsFailed).snd = .error e)
    ∧ ∀ g, (capture_frame_copy wEventsFailed).snd ≠ .ok g :=
  ⟨by decide, by decide,
   (failed_before_ready_errors wEventsFailed (by decide) (by decide)).1,
   (failed_before_ready_errors wEventsFailed (by decide) (by decide)).2⟩

/-- C1 (the code evaluated at the failing input): with capture region
{0,0,5,5} and a single captured 2 x 2 frame whose output lies wholly
outside that region, screenshot returns the 2 x 2 frame image itself
rather than the 5 x 5 opaque-black canvas with the out-of-region frame
skipped: the fold composes the rotated frames with replace at (0, 0) and
never consults the region or the frame positions. -/
theorem screenshot_composition_divergence :
    screenshot { x_coordinate := 0, y_coordinate := 0, width := 5, height := 5 }
      [(testImage2x2, .Normal)] = .ok testImage2x2
    ∧ testImage2x2.width = 2
    ∧ testImage2x2.pixel 0 0 ≠ opaqueBlack := by
  refine ⟨rfl, rfl, ?_⟩
  decide

/-- C8: applying the 90 degree rotation four times returns a buffer equal
to the original image, and applying the horizontal flip twice returns a
buffer equal to the original image. -/
theorem rotate_four_flip_two_id (im : RgbaImage) (width height : Nat) :
    imageEq (rotate_image_buffer (rotate_image_buffer (rotate_image_buffer
        (rotate_image_buffer im ._90 width height) ._90 width height)
        ._90 width height) ._90 width height) im
    ∧ imageEq (rotate_image_buffer (rotate_image_buffer im .Flipped width height)
        .Flipped width height) im := by
  constructor
  · refine ⟨rfl, rfl, ?_⟩
    intro x y hx hy
    dsimp only [rotate_image_buffer, rotate90] at hx hy ⊢
    have ex : im.width - 1 - (im.width - 1 - x) = x := by omega
    have ey : im.height - 1 - (im.height - 1 - y) = y := by omega
    rw [ex, ey]
  · refine ⟨rfl, rfl, ?_⟩
    intro x y hx hy
    dsimp only [rotate_image_buffer, flip_horizontal] at hx hy ⊢
    have ex : im.width - 1 - (im.width - 1 - x) = x := by omega
    rw [ex]

end Wayshot
